import Mathlib

/-!
Shallow embedding of the flight-hacker-api search pipeline (src/index.js, the
canonical variant of the file: local ranking, upstream error checking), and
proofs of the specified properties.

Conventions of the embedding:
* JS numbers that carry prices and scores are modelled as exact rationals.
* `parseFloat(offer.price.total)` is modelled by storing the numeric reading of
  the upstream decimal string directly as a rational.
* JS `Array.prototype.sort` is a stable sort by a comparator; it is embedded as
  `List.insertionSort` over the corresponding non-strict total preorder, which
  produces the same (unique) stably sorted sequence.
* Fallible JS steps (a thrown error, a rejected promise) are `Except`/`Option`.
-/

/-- Truthiness of an optional JS string: absent, null and the empty string are falsy. -/
def truthyStr : Option String → Bool
  | some s => !(s == "")
  | none => false

/-- Embedding of the JS expression `o || d` for an optional string. -/
def jsOrStr (o : Option String) (d : String) : String :=
  match o with
  | some s => if s = ("") then d else s
  | none => d

/-- Embedding of `q.pax || 1`: both an absent field and the number 0 are falsy. -/
def jsOrNat (o : Option Nat) (d : Nat) : Nat :=
  match o with
  | some n => if n = 0 then d else n
  | none => d

/-- Binary `Math.min` on exact rationals. -/
def jsMinQ (a b : ℚ) : ℚ := if a ≤ b then a else b

/-- Binary `Math.max` on exact rationals. -/
def jsMaxQ (a b : ℚ) : ℚ := if a ≤ b then b else a

/-- Binary `Math.max` on integers. -/
def jsMaxI (a b : Int) : Int := if a ≤ b then b else a

/-- Numeric value of a run of decimal digits, as read by `parseInt(-, 10)`. -/
def digitsVal (ds : List Char) : Nat :=
  ds.foldl (fun acc c => acc * 10 + (c.toNat - 48)) 0

/-- One optional component `(?:(\d+)X)?` of the duration regex, matched at the head
of `l`: a non-empty maximal digit run immediately followed by the letter consumes
input and yields its value; otherwise the component captures nothing and the
position is unchanged (greedy match with backtracking: a shorter digit prefix is
always followed by another digit, never by the letter, so the run is all or
nothing). -/
def grabComp (letter : Char) (l : List Char) : Nat × List Char :=
  match l.drop ((l.takeWhile (fun c => c.isDigit)).length) with
  | c :: rest =>
    if l.takeWhile (fun c => c.isDigit) ≠ [] ∧ c = letter
    then (digitsVal (l.takeWhile (fun c => c.isDigit)), rest)
    else (0, l)
  | [] => (0, l)

/-- Leftmost occurrence of the literal `PT` in the character list; returns the
suffix right after it, exactly as the unanchored regex engine finds its match
position (both capture groups are optional, so the regex matches at the first
position where the literal `PT` does). -/
def findPT : List Char → Option (List Char)
  | [] => none
  | c :: cs => if c = ('P') ∧ cs.head? = some ('T') then some cs.tail else findPT cs

/-- Decidable companion of `findPT`: does the string contain the literal `PT`. -/
def containsPT : List Char → Bool
  | [] => false
  | c :: cs => if c = ('P') ∧ cs.head? = some ('T') then true else containsPT cs

/-- Embedding of `parseISODurationToMinutes` (src/index.js): match the unanchored
regex `PT(?:(\d+)H)?(?:(\d+)M)?` against the string; a missing match or missing
groups default both components to zero; return `h * 60 + min`. -/
def parseISODurationToMinutes (s : String) : Nat :=
  match findPT s.data with
  | none => 0
  | some rest =>
    let hp := grabComp ('H') rest
    let mp := grabComp ('M') hp.2
    hp.1 * 60 + mp.1

/-- One endpoint of a segment: `{ iataCode, at }`. -/
structure FlightPoint where
  iataCode : String
  «at» : String
  deriving DecidableEq

/-- One upstream flight segment. -/
structure Segment where
  departure : FlightPoint
  arrival : FlightPoint
  carrierCode : String
  number : String
  duration : String
  deriving DecidableEq

/-- One upstream itinerary: its own ISO duration plus its segments. -/
structure Itinerary where
  duration : String
  segments : List Segment
  deriving DecidableEq

/-- The upstream price object; `total` holds the numeric reading of the upstream
decimal string (the value `parseFloat` produces on it). -/
structure PriceObj where
  total : ℚ
  currency : String
  deriving DecidableEq

/-- One upstream offer. -/
structure Offer where
  id : Option String
  price : PriceObj
  itineraries : List Itinerary
  deriving DecidableEq

/-- One normalized flight leg. -/
structure Leg where
  «from» : String
  «to» : String
  depart : String
  arrive : String
  airline : String
  flightNo : String
  durationMin : Nat
  deriving DecidableEq

/-- One normalized flight option returned to the caller. -/
structure FlightOption where
  id : String
  provider : String
  price : ℚ
  currency : String
  legs : List Leg
  totalDurationMin : Nat
  transfers : Nat
  notes : List String
  deriving DecidableEq

/-- Embedding of the per-segment callback `itin.segments.map(seg => ...)`. -/
def mapLeg (seg : Segment) : Leg :=
  { «from» := seg.departure.iataCode,
    «to» := seg.arrival.iataCode,
    depart := seg.departure.«at»,
    arrive := seg.arrival.«at»,
    airline := seg.carrierCode,
    flightNo := seg.carrierCode ++ seg.number,
    durationMin := parseISODurationToMinutes seg.duration }

/-- Embedding of the offer-to-option mapping body (the `data.map` callback in
src/index.js). When `offer.itineraries[0]` is undefined the JS body throws a
TypeError before building anything; that is the `none` case. -/
def mapOffer (idx : Nat) (offer : Offer) : Option FlightOption :=
  match offer.itineraries.head? with
  | none => none
  | some itin =>
    some
      { id := jsOrStr offer.id ("am-" ++ toString idx),
        provider := "AMADEUS",
        price := offer.price.total,
        currency := offer.price.currency,
        legs := itin.segments.map mapLeg,
        totalDurationMin := parseISODurationToMinutes itin.duration,
        transfers := (jsMaxI 0 (((itin.segments.map mapLeg).length : Int) - 1)).toNat,
        notes := [] }

/-- `data.map((offer, idx) => ...)`: a TypeError thrown on any offer aborts the
whole mapping, hence the `Option` over the whole list. -/
def mapOffers (idx : Nat) : List Offer → Option (List FlightOption)
  | [] => some []
  | o :: rest =>
    match mapOffer idx o, mapOffers (idx + 1) rest with
    | some m, some ms => some (m :: ms)
    | _, _ => none

/-- `const optimize = q.optimize || 'balanced'`. -/
def effOptimize (optimize : Option String) : String :=
  jsOrStr optimize ("balanced")

/-- Non-strict preorder underlying the comparator `(a, b) => a.price - b.price`. -/
def priceR (a b : FlightOption) : Prop := a.price ≤ b.price

instance : DecidableRel priceR :=
  fun a b => inferInstanceAs (Decidable (a.price ≤ b.price))

instance : IsTotal FlightOption priceR := ⟨fun a b => le_total a.price b.price⟩

instance : IsTrans FlightOption priceR := ⟨fun _ _ _ h1 h2 => le_trans h1 h2⟩

/-- Non-strict preorder underlying `(a, b) => a.totalDurationMin - b.totalDurationMin`. -/
def durR (a b : FlightOption) : Prop := a.totalDurationMin ≤ b.totalDurationMin

instance : DecidableRel durR :=
  fun a b => inferInstanceAs (Decidable (a.totalDurationMin ≤ b.totalDurationMin))

instance : IsTotal FlightOption durR := ⟨fun a b => le_total a.totalDurationMin b.totalDurationMin⟩

instance : IsTrans FlightOption durR := ⟨fun _ _ _ h1 h2 => le_trans h1 h2⟩

/-- Non-strict preorder underlying `(a, b) => (a._score ?? 0) - (b._score ?? 0)`,
on options paired with their transient score. -/
def scoreR (a b : FlightOption × ℚ) : Prop := a.2 ≤ b.2

instance : DecidableRel scoreR :=
  fun a b => inferInstanceAs (Decidable (a.2 ≤ b.2))

instance : IsTotal (FlightOption × ℚ) scoreR := ⟨fun a b => le_total a.2 b.2⟩

instance : IsTrans (FlightOption × ℚ) scoreR := ⟨fun _ _ _ h1 h2 => le_trans h1 h2⟩

/-- `Math.min(...l)` over the values actually fed to it; the pipeline never reads
the empty case (an empty mapped list computes no scores), so it is given a junk
value. -/
def minQ : List ℚ → ℚ
  | [] => 0
  | x :: xs => xs.foldl jsMinQ x

/-- `Math.max(...l)`; empty case as in `minQ`. -/
def maxQ : List ℚ → ℚ
  | [] => 0
  | x :: xs => xs.foldl jsMaxQ x

/-- The transient `_score` the balanced branch writes on an option `m`, as a
function of the whole mapped list (the min/max are taken over that list). -/
def scoreOf (mapped : List FlightOption) (m : FlightOption) : ℚ :=
  (1 / 2) * ((m.price - minQ (mapped.map (fun x => x.price)))
      / jsMaxQ 1 (maxQ (mapped.map (fun x => x.price)) - minQ (mapped.map (fun x => x.price))))
    + (1 / 2) * (((m.totalDurationMin : ℚ) - minQ (mapped.map (fun x => (x.totalDurationMin : ℚ))))
      / jsMaxQ 1 (maxQ (mapped.map (fun x => (x.totalDurationMin : ℚ)))
          - minQ (mapped.map (fun x => (x.totalDurationMin : ℚ)))))

/-- Balanced branch of the local sort: write the scores, stable-sort by them,
delete them again (here: pair, sort by the second component, project). -/
def balancedSort (mapped : List FlightOption) : List FlightOption :=
  ((mapped.map (fun m => (m, scoreOf mapped m))).insertionSort scoreR).map Prod.fst

/-- Local ranking step of searchAmadeus (the `// local sort` block). -/
def rank (optimize : Option String) (mapped : List FlightOption) : List FlightOption :=
  if effOptimize optimize = ("shortest") then mapped.insertionSort durR
  else if effOptimize optimize = ("cheapest") then mapped.insertionSort priceR
  else balancedSort mapped

/-- One upstream error entry; `raw` is its `JSON.stringify` dump, kept opaque. -/
structure AmadeusError where
  detail : Option String
  title : Option String
  raw : String
  deriving DecidableEq

/-- `e.detail || e.title || JSON.stringify(e)`. -/
def errMsgOf (e : AmadeusError) : String :=
  jsOrStr e.detail (jsOrStr e.title e.raw)

/-- `array.join(' | ')`. -/
def joinBar : List String → String
  | [] => ""
  | [x] => x
  | x :: y :: rest => x ++ " | " ++ joinBar (y :: rest)

/-- The decoded upstream search response. `errors = []` covers both an absent and
an empty errors field (`res.errors?.length` is falsy for both); `data = none`
covers a `data` field that is absent or not an array (`Array.isArray` fails). -/
structure AmadeusResponse where
  errors : List AmadeusError
  data : Option (List Offer)
  deriving DecidableEq

/-- The validated caller query. -/
structure Query where
  «from» : String
  «to» : String
  start : String
  «end» : Option String
  pax : Option Nat
  optimize : Option String
  deriving DecidableEq

/-- Pure core of `searchAmadeus` from the decoded upstream response on: upstream
error check, data extraction, offer mapping, local ranking. A TypeError thrown
inside the mapping callback surfaces as an error as well. -/
def searchAmadeus (q : Query) (res : AmadeusResponse) : Except String (List FlightOption) :=
  if res.errors ≠ [] then
    Except.error ("Amadeus error: " ++ joinBar (res.errors.map errMsgOf))
  else
    match mapOffers 0 (res.data.getD []) with
    | none => Except.error ("TypeError")
    | some mapped => Except.ok (rank q.optimize mapped)

/-- The upstream request parameters of `searchAmadeus` as the ordered key-value
list held by `URLSearchParams` (`params.set` appends a fresh key); `fmt` stands
for `format(new Date(-), 'yyyy-MM-dd')`, kept abstract. -/
def buildParams (fmt : String → String) (q : Query) : List (String × String) :=
  [("originLocationCode", q.«from»),
   ("destinationLocationCode", q.«to»),
   ("departureDate", fmt q.start),
   ("adults", toString (jsOrNat q.pax 1)),
   ("currencyCode", "USD"),
   ("max", "30")]
  ++ (if truthyStr q.«end» then [("returnDate", fmt (jsOrStr q.«end» ("")))] else [])

/-- The decoded body of the credential exchange response. -/
structure TokenResponse where
  access_token : Option String
  deriving DecidableEq

/-- `getAccessToken` from the outcome of the `ky.post` credential exchange on:
ky rejects on a non-success HTTP status (the error case of the argument); on a
success the `access_token` field is returned as-is, present or not. -/
def getAccessToken (res : Except String TokenResponse) : Except String (Option String) :=
  match res with
  | Except.error e => Except.error e
  | Except.ok r => Except.ok r.access_token

/-- Modelled from the spec wording, for comparison with the code: a string of
the shape `PT<h>H<m>M` with either component optionally absent. -/
def IsDurShape (s : String) : Prop :=
  ∃ hPart mPart : List Char,
    (hPart = [] ∨ ∃ hd : List Char, hd ≠ [] ∧ (∀ c ∈ hd, c.isDigit) ∧ hPart = hd ++ [('H')]) ∧
    (mPart = [] ∨ ∃ md : List Char, md ≠ [] ∧ (∀ c ∈ md, c.isDigit) ∧ mPart = md ++ [('M')]) ∧
    s.data = ('P') :: ('T') :: (hPart ++ mPart)

/-! General helper lemmas. -/

theorem pairwise_of_mem_rel {α : Type _} {R : α → α → Prop} :
    ∀ {l : List α}, (∀ a ∈ l, ∀ b ∈ l, R a b) → l.Pairwise R
  | [], _ => List.Pairwise.nil
  | a :: l, h => by
    constructor
    · intro b hb
      exact h a (by simp) b (by simp [hb])
    · exact pairwise_of_mem_rel (fun x hx y hy => h x (by simp [hx]) y (by simp [hy]))

/-! Lemmas about the ranking step. -/

theorem rank_shortest_eq {o : Option String} (mapped : List FlightOption)
    (h : effOptimize o = "shortest") : rank o mapped = mapped.insertionSort durR := by
  unfold rank
  rw [h]
  simp

theorem rank_cheapest_eq {o : Option String} (mapped : List FlightOption)
    (h : effOptimize o = "cheapest") : rank o mapped = mapped.insertionSort priceR := by
  unfold rank
  rw [h]
  simp

theorem rank_balanced_eq {o : Option String} (mapped : List FlightOption)
    (h1 : effOptimize o ≠ "shortest") (h2 : effOptimize o ≠ "cheapest") :
    rank o mapped = balancedSort mapped := by
  unfold rank
  rw [if_neg h1, if_neg h2]

theorem mem_scored_snd (mapped : List FlightOption) :
    ∀ p ∈ (mapped.map (fun m => (m, scoreOf mapped m))).insertionSort scoreR,
      p.2 = scoreOf mapped p.1 := by
  intro p hp
  rw [List.mem_insertionSort] at hp
  rcases List.mem_map.mp hp with ⟨m, _, rfl⟩
  rfl

theorem balancedSort_pairwise (mapped : List FlightOption) :
    (balancedSort mapped).Pairwise (fun a b => scoreOf mapped a ≤ scoreOf mapped b) := by
  unfold balancedSort
  rw [List.pairwise_map]
  refine List.Pairwise.imp_of_mem ?_ (List.sorted_insertionSort scoreR _)
  intro a b ha hb hr
  have h2 := mem_scored_snd mapped a ha
  have h3 := mem_scored_snd mapped b hb
  have hr2 : a.2 ≤ b.2 := hr
  rw [h2, h3] at hr2
  exact hr2

theorem balancedSort_perm (mapped : List FlightOption) : (balancedSort mapped).Perm mapped := by
  unfold balancedSort
  have h1 := (List.perm_insertionSort scoreR (mapped.map (fun m => (m, scoreOf mapped m)))).map
    Prod.fst
  have h2 : List.map Prod.fst (mapped.map (fun m => (m, scoreOf mapped m))) = mapped := by
    rw [List.map_map]
    have h3 : (Prod.fst ∘ fun m : FlightOption => (m, scoreOf mapped m)) = id := rfl
    rw [h3, List.map_id]
  rw [h2] at h1
  exact h1

theorem rank_perm_helper (o : Option String) (mapped : List FlightOption) :
    (rank o mapped).Perm mapped := by
  by_cases h1 : effOptimize o = "shortest"
  · rw [rank_shortest_eq mapped h1]
    exact List.perm_insertionSort durR mapped
  by_cases h2 : effOptimize o = "cheapest"
  · rw [rank_cheapest_eq mapped h2]
    exact List.perm_insertionSort priceR mapped
  · rw [rank_balanced_eq mapped h1 h2]
    exact balancedSort_perm mapped

theorem rank_nil (o : Option String) : rank o [] = [] := by
  by_cases h1 : effOptimize o = "shortest"
  · rw [rank_shortest_eq [] h1]
    rfl
  by_cases h2 : effOptimize o = "cheapest"
  · rw [rank_cheapest_eq [] h2]
    rfl
  · rw [rank_balanced_eq [] h1 h2]
    rfl

/-! Lemmas about the duration parser. -/

theorem digits_takeWhile (ds : List Char) (c : Char) (rest : List Char)
    (hds : ∀ x ∈ ds, x.isDigit = true) (hc : c.isDigit = false) :
    (ds ++ c :: rest).takeWhile (fun x => x.isDigit) = ds := by
  induction ds with
  | nil => simp [List.takeWhile_cons, hc]
  | cons d ds ih =>
    have hd : d.isDigit = true := hds d (by simp)
    simp only [List.cons_append, List.takeWhile_cons, hd, if_pos]
    rw [ih (fun x hx => hds x (by simp [hx]))]

theorem takeWhile_all_digits (ds : List Char) (hds : ∀ x ∈ ds, x.isDigit = true) :
    ds.takeWhile (fun x => x.isDigit) = ds := by
  induction ds with
  | nil => rfl
  | cons d ds ih =>
    have hd : d.isDigit = true := hds d (by simp)
    simp only [List.takeWhile_cons, hd, if_pos]
    rw [ih (fun x hx => hds x (by simp [hx]))]

theorem grabComp_hit (letter : Char) (ds rest : List Char) (hne : ds ≠ [])
    (hds : ∀ x ∈ ds, x.isDigit = true) (hl : letter.isDigit = false) :
    grabComp letter (ds ++ letter :: rest) = (digitsVal ds, rest) := by
  unfold grabComp
  rw [digits_takeWhile ds letter rest hds hl, List.drop_left]
  simp [hne]

theorem grabComp_miss_cons (letter c : Char) (ds rest : List Char)
    (hds : ∀ x ∈ ds, x.isDigit = true) (hc : c.isDigit = false) (hcl : c ≠ letter) :
    grabComp letter (ds ++ c :: rest) = (0, ds ++ c :: rest) := by
  unfold grabComp
  rw [digits_takeWhile ds c rest hds hc, List.drop_left]
  simp [hcl]

theorem grabComp_all_digits (letter : Char) (ds : List Char)
    (hds : ∀ x ∈ ds, x.isDigit = true) :
    grabComp letter ds = (0, ds) := by
  unfold grabComp
  rw [takeWhile_all_digits ds hds, List.drop_length]

theorem findPT_PT (rest : List Char) : findPT (('P') :: ('T') :: rest) = some rest := by
  simp [findPT]

theorem findPT_eq_none (l : List Char) (h : containsPT l = false) : findPT l = none := by
  induction l with
  | nil => rfl
  | cons c cs ih =>
    simp only [containsPT] at h
    simp only [findPT]
    by_cases hc : c = ('P') ∧ cs.head? = some ('T')
    · rw [if_pos hc] at h
      cases h
    · rw [if_neg hc] at h ⊢
      exact ih h

theorem containsPT_iff (l : List Char) :
    containsPT l = true ↔ ∃ l1 l2 : List Char, l = l1 ++ ('P') :: ('T') :: l2 := by
  induction l with
  | nil =>
    simp only [containsPT]
    constructor
    · intro h
      cases h
    · rintro ⟨l1, l2, h⟩
      cases l1 <;> simp_all
  | cons c cs ih =>
    simp only [containsPT]
    by_cases hc : c = ('P') ∧ cs.head? = some ('T')
    · rw [if_pos hc]
      obtain ⟨hc1, hc2⟩ := hc
      cases cs with
      | nil => simp at hc2
      | cons d ds =>
        simp only [List.head?] at hc2
        injection hc2 with hd
        constructor
        · intro _
          exact ⟨[], ds, by rw [hc1, hd]; rfl⟩
        · intro _
          rfl
    · rw [if_neg hc, ih]
      constructor
      · rintro ⟨l1, l2, h⟩
        exact ⟨c :: l1, l2, by rw [h]; rfl⟩
      · rintro ⟨l1, l2, h⟩
        cases l1 with
        | nil =>
          exfalso
          apply hc
          injection h with h1 h2
          constructor
          · exact h1
          · rw [h2]
            rfl
        | cons a l1 =>
          injection h with h1 h2
          exact ⟨l1, l2, h2⟩

theorem parse_eq_of_findPT (s : String) (rest : List Char) (h : findPT s.data = some rest) :
    parseISODurationToMinutes s
      = (grabComp ('H') rest).1 * 60 + (grabComp ('M') (grabComp ('H') rest).2).1 := by
  unfold parseISODurationToMinutes
  rw [h]

theorem parse_full (hd md : List Char) (hhd : hd ≠ []) (hhdd : ∀ x ∈ hd, x.isDigit = true)
    (hmd : md ≠ []) (hmdd : ∀ x ∈ md, x.isDigit = true) :
    parseISODurationToMinutes (String.mk (('P') :: ('T') :: (hd ++ ('H') :: (md ++ [('M')]))))
      = 60 * digitsVal hd + digitsVal md := by
  rw [parse_eq_of_findPT _ (hd ++ ('H') :: (md ++ [('M')])) (findPT_PT _)]
  rw [grabComp_hit ('H') hd (md ++ [('M')]) hhd hhdd (by decide)]
  rw [show (md ++ [('M')]) = md ++ ('M') :: [] from rfl]
  rw [grabComp_hit ('M') md [] hmd hmdd (by decide)]
  omega

theorem parse_h_only (hd : List Char) (hhd : hd ≠ []) (hhdd : ∀ x ∈ hd, x.isDigit = true) :
    parseISODurationToMinutes (String.mk (('P') :: ('T') :: (hd ++ [('H')])))
      = 60 * digitsVal hd := by
  rw [parse_eq_of_findPT _ (hd ++ [('H')]) (findPT_PT _)]
  rw [show hd ++ [('H')] = hd ++ ('H') :: [] from rfl]
  rw [grabComp_hit ('H') hd [] hhd hhdd (by decide)]
  rw [show grabComp ('M') ((digitsVal hd, ([] : List Char)).2) = (0, []) from rfl]
  omega

theorem parse_m_only (md : List Char) (hmd : md ≠ []) (hmdd : ∀ x ∈ md, x.isDigit = true) :
    parseISODurationToMinutes (String.mk (('P') :: ('T') :: (md ++ [('M')])))
      = digitsVal md := by
  rw [parse_eq_of_findPT _ (md ++ [('M')]) (findPT_PT _)]
  rw [show md ++ [('M')] = md ++ ('M') :: [] from rfl]
  rw [grabComp_miss_cons ('H') ('M') md [] hmdd (by decide) (by decide)]
  rw [show ((0 : Nat), md ++ ('M') :: []).2 = md ++ ('M') :: [] from rfl]
  rw [grabComp_hit ('M') md [] hmd hmdd (by decide)]
  omega

theorem parse_pt_only : parseISODurationToMinutes (String.mk [('P'), ('T')]) = 0 := by decide

theorem parse_no_pt (s : String) (h : containsPT s.data = false) :
    parseISODurationToMinutes s = 0 := by
  unfold parseISODurationToMinutes
  rw [findPT_eq_none s.data h]

/-! Lemmas about error joining, mapping and transfers. -/

theorem joinBar_infix (l : List String) (x : String) (hx : x ∈ l) :
    ∃ u v : List Char, (joinBar l).data = u ++ (x.data ++ v) := by
  induction l with
  | nil => cases hx
  | cons a rest ih =>
    cases rest with
    | nil =>
      obtain rfl : x = a := List.mem_singleton.mp hx
      exact ⟨[], [], by simp [joinBar]⟩
    | cons b rest2 =>
      rcases List.mem_cons.mp hx with rfl | hx2
      · refine ⟨[], (" | ").data ++ (joinBar (b :: rest2)).data, ?_⟩
        simp [joinBar, String.data_append]
      · obtain ⟨u, v, hu⟩ := ih hx2
        refine ⟨a.data ++ (" | ").data ++ u, v, ?_⟩
        simp [joinBar, String.data_append, hu]

theorem mapOffer_isSome (k : Nat) (o : Offer) (h : o.itineraries ≠ []) :
    ∃ m, mapOffer k o = some m := by
  unfold mapOffer
  cases hh : o.itineraries.head? with
  | none =>
    exact absurd (List.head?_eq_none_iff.mp hh) h
  | some itin =>
    exact ⟨_, rfl⟩

theorem mapOffers_sound (k : Nat) (offers : List Offer)
    (h : ∀ o ∈ offers, o.itineraries ≠ []) :
    ∃ mapped, mapOffers k offers = some mapped ∧ mapped.length = offers.length ∧
      ∀ i, i < offers.length → mapped[i]? = (offers[i]?).bind (mapOffer (k + i)) := by
  induction offers generalizing k with
  | nil =>
    exact ⟨[], rfl, rfl, fun i hi => absurd hi (Nat.not_lt_zero i)⟩
  | cons o rest ih =>
    obtain ⟨m, hm⟩ := mapOffer_isSome k o (h o (by simp))
    obtain ⟨ms, hms, hlen, hidx⟩ := ih (fun x hx => h x (by simp [hx])) (k := k + 1)
    refine ⟨m :: ms, ?_, by simp [hlen], ?_⟩
    · simp [mapOffers, hm, hms]
    · intro i hi
      cases i with
      | zero =>
        simp [hm]
      | succ j =>
        have hj : j < rest.length := by simpa using hi
        have hrec := hidx j hj
        have hk : k + (j + 1) = (k + 1) + j := by omega
        simp only [List.getElem?_cons_succ, hk]
        exact hrec

theorem transfers_arith (n : Nat) :
    (((jsMaxI 0 ((n : Int) - 1)).toNat : Int) = jsMaxI 0 ((n : Int) - 1)) ∧
    (0 ≤ ((jsMaxI 0 ((n : Int) - 1)).toNat : Int)) ∧
    (n ≠ 0 → ((jsMaxI 0 ((n : Int) - 1)).toNat : Int) = (n : Int) - 1) ∧
    (n = 1 → (jsMaxI 0 ((n : Int) - 1)).toNat = 0) := by
  unfold jsMaxI
  split
  · refine ⟨by omega, by omega, fun h => by omega, fun h => by omega⟩
  · refine ⟨by omega, by omega, fun h => by omega, fun h => by omega⟩

/-! Concrete fixtures used by witnesses and counterexamples. -/

def wQuery : Query :=
  { «from» := "JFK", «to» := "LAX", start := "2024-06-01", «end» := none, pax := none,
    optimize := none }

def wErr : AmadeusError := { detail := some ("boom"), title := none, raw := "RAW" }

def wResErr : AmadeusResponse := { errors := [wErr], data := none }

def wResNoData : AmadeusResponse := { errors := [], data := none }

def wSeg : Segment :=
  { departure := { iataCode := "JFK", «at» := "2024-06-01T08:00" },
    arrival := { iataCode := "LAX", «at» := "2024-06-01T11:00" },
    carrierCode := "AA", number := "100", duration := "PT6H" }

def wItin : Itinerary := { duration := "PT6H", segments := [wSeg] }

def wOffer : Offer :=
  { id := some ("OF1"), price := { total := 150, currency := "USD" },
    itineraries := [wItin] }

def wResData : AmadeusResponse := { errors := [], data := some [wOffer] }

def wMapped : FlightOption :=
  { id := "OF1", provider := "AMADEUS", price := 150, currency := "USD",
    legs := [{ «from» := "JFK", «to» := "LAX", depart := "2024-06-01T08:00",
               arrive := "2024-06-01T11:00", airline := "AA", flightNo := "AA100",
               durationMin := 360 }],
    totalDurationMin := 360, transfers := 0, notes := [] }

def cOpt1 : FlightOption :=
  { id := "c1", provider := "AMADEUS", price := 100, currency := "USD", legs := [],
    totalDurationMin := 300, transfers := 0, notes := [] }

def cOpt2 : FlightOption :=
  { id := "c2", provider := "AMADEUS", price := 100, currency := "USD", legs := [],
    totalDurationMin := 60, transfers := 0, notes := [] }

/-! The claims. -/

/-- C1: whenever the upstream response carries a non-empty error list, the search
core fails with a message that joins, for every error entry, its detail if
truthy, else its title if truthy, else its raw dump, and the outcome is the same
error whatever the data field holds (no offer is mapped). -/
theorem c1_upstream_errors_fail (q : Query) (res : AmadeusResponse)
    (hne : res.errors ≠ []) :
    searchAmadeus q res
      = Except.error ("Amadeus error: " ++ joinBar (res.errors.map errMsgOf)) ∧
    (∀ e ∈ res.errors, ∃ u v : List Char,
      ("Amadeus error: " ++ joinBar (res.errors.map errMsgOf)).data
        = u ++ ((errMsgOf e).data ++ v)) ∧
    (∀ d : Option (List Offer),
      searchAmadeus q { errors := res.errors, data := d } = searchAmadeus q res) := by
  have hcore : searchAmadeus q res
      = Except.error ("Amadeus error: " ++ joinBar (res.errors.map errMsgOf)) := by
    unfold searchAmadeus
    rw [if_pos hne]
  refine ⟨hcore, ?_, ?_⟩
  · intro e he
    obtain ⟨u, v, hu⟩ :=
      joinBar_infix (res.errors.map errMsgOf) (errMsgOf e) (List.mem_map_of_mem errMsgOf he)
    refine ⟨("Amadeus error: ").data ++ u, v, ?_⟩
    rw [String.data_append, hu, List.append_assoc]
  · intro d
    rw [hcore]
    unfold searchAmadeus
    rw [if_pos hne]

/-- Witness for C1 at a concrete one-error response. -/
theorem c1_upstream_errors_fail_witness :
    wResErr.errors ≠ [] ∧
    searchAmadeus wQuery wResErr
      = Except.error ("Amadeus error: " ++ joinBar (wResErr.errors.map errMsgOf)) :=
  ⟨by decide, (c1_upstream_errors_fail wQuery wResErr (by decide)).1⟩

/-- C2: on a non-empty mapped list, the cheapest ranking is non-decreasing in
price, the shortest ranking non-decreasing in totalDurationMin, and any other
effective optimize value (balanced, unrecognized, absent) is non-decreasing in
the transient balanced score; the result is always a permutation of the mapped
options themselves (so no score field survives on the returned options). -/
theorem c2_rank_sorted (mapped : List FlightOption) (hne : mapped ≠ [])
    (optimize : Option String) :
    (effOptimize optimize = "cheapest" → (rank optimize mapped).Pairwise priceR) ∧
    (effOptimize optimize = "shortest" → (rank optimize mapped).Pairwise durR) ∧
    (effOptimize optimize ≠ "cheapest" → effOptimize optimize ≠ "shortest" →
      (rank optimize mapped).Pairwise (fun a b => scoreOf mapped a ≤ scoreOf mapped b)) ∧
    (rank optimize mapped).Perm mapped := by
  refine ⟨?_, ?_, ?_, rank_perm_helper optimize mapped⟩
  · intro h
    rw [rank_cheapest_eq mapped h]
    exact List.sorted_insertionSort priceR mapped
  · intro h
    rw [rank_shortest_eq mapped h]
    exact List.sorted_insertionSort durR mapped
  · intro h1 h2
    rw [rank_balanced_eq mapped h2 h1]
    exact balancedSort_pairwise mapped

/-- Witness for C2 at a concrete two-option list under the cheapest mode. -/
theorem c2_rank_sorted_witness :
    ([cOpt1, cOpt2] : List FlightOption) ≠ [] ∧
    (rank (some ("cheapest")) [cOpt1, cOpt2]).Pairwise priceR :=
  ⟨by decide, (c2_rank_sorted [cOpt1, cOpt2] (by decide) (some ("cheapest"))).1 (by decide)⟩

/-- C3 counterexample: the duration regex is unanchored, so the malformed input
XPT2H (not of the shape PT&lt;h&gt;H&lt;m&gt;M) parses to 120 instead of degrading to 0. -/
theorem c3_parse_duration_counterexample :
    ¬ IsDurShape "XPT2H" ∧ parseISODurationToMinutes "XPT2H" = 120 := by
  constructor
  · rintro ⟨hPart, mPart, _, _, heq⟩
    have h0 : ("XPT2H").data = [('X'), ('P'), ('T'), ('2'), ('H')] := rfl
    rw [h0] at heq
    injection heq with h1 h2
    exact absurd h1 (by decide)
  · decide

/-- C3 (amended): every well-shaped duration string PT&lt;h&gt;H&lt;m&gt;M (either component
optionally absent) parses to 60*h + m; the parser is total, and every input not
containing the substring PT (rather than every malformed input) returns 0. -/
theorem c3_parse_duration_amended (hd md : List Char) (s : String)
    (hhd : hd ≠ []) (hhdd : ∀ x ∈ hd, x.isDigit = true)
    (hmd : md ≠ []) (hmdd : ∀ x ∈ md, x.isDigit = true)
    (hs : containsPT s.data = false) :
    parseISODurationToMinutes (String.mk (('P') :: ('T') :: (hd ++ ('H') :: (md ++ [('M')]))))
        = 60 * digitsVal hd + digitsVal md ∧
    parseISODurationToMinutes (String.mk (('P') :: ('T') :: (hd ++ [('H')])))
        = 60 * digitsVal hd ∧
    parseISODurationToMinutes (String.mk (('P') :: ('T') :: (md ++ [('M')])))
        = digitsVal md ∧
    parseISODurationToMinutes (String.mk [('P'), ('T')]) = 0 ∧
    parseISODurationToMinutes s = 0 :=
  ⟨parse_full hd md hhd hhdd hmd hmdd, parse_h_only hd hhd hhdd,
    parse_m_only md hmd hmdd, parse_pt_only, parse_no_pt s hs⟩

/-- Witness for C3 (amended) at the concrete examples of the specification. -/
theorem c3_parse_duration_amended_witness :
    parseISODurationToMinutes "PT2H30M" = 150 ∧
    parseISODurationToMinutes "PT3H" = 180 ∧
    parseISODurationToMinutes "PT45M" = 45 ∧
    parseISODurationToMinutes "garbage" = 0 := by
  have h1 := (c3_parse_duration_amended [('2')] [('3'), ('0')] "garbage"
    (by decide) (by decide) (by decide) (by decide) (by decide)).1
  have h2 := (c3_parse_duration_amended [('3')] [('9')] "garbage"
    (by decide) (by decide) (by decide) (by decide) (by decide)).2.1
  have h3 := (c3_parse_duration_amended [('9')] [('4'), ('5')] "garbage"
    (by decide) (by decide) (by decide) (by decide) (by decide)).2.2.1
  have h4 := (c3_parse_duration_amended [('2')] [('3'), ('0')] "garbage"
    (by decide) (by decide) (by decide) (by decide) (by decide)).2.2.2.2
  have e1 : 60 * digitsVal [('2')] + digitsVal [('3'), ('0')] = 150 := by decide
  have e2 : 60 * digitsVal [('3')] = 180 := by decide
  have e3 : digitsVal [('4'), ('5')] = 45 := by decide
  exact ⟨e1 ▸ h1, e2 ▸ h2, e3 ▸ h3, h4⟩

/-- C4: when the upstream response has no errors and a non-empty data list all
of whose offers carry at least one itinerary, the mapping stage succeeds,
produces exactly one option per offer, in the same relative order, and the
search core returns the ranked mapped list. -/
theorem c4_mapping_total (q : Query) (res : AmadeusResponse) (offers : List Offer)
    (herr : res.errors = []) (hdata : res.data = some offers) (hne : offers ≠ [])
    (hshape : ∀ o ∈ offers, o.itineraries ≠ []) :
    ∃ mapped, mapOffers 0 offers = some mapped
      ∧ searchAmadeus q res = Except.ok (rank q.optimize mapped)
      ∧ mapped.length = offers.length
      ∧ ∀ i, i < offers.length → mapped[i]? = (offers[i]?).bind (mapOffer i) := by
  obtain ⟨mapped, hm, hlen, hidx⟩ := mapOffers_sound 0 offers hshape
  refine ⟨mapped, hm, ?_, hlen, fun i hi => by simpa using hidx i hi⟩
  unfold searchAmadeus
  rw [herr, hdata]
  simp [hm]

/-- Witness for C4 at a concrete one-offer response. -/
theorem c4_mapping_total_witness :
    ∃ mapped, mapOffers 0 ([wOffer]) = some mapped
      ∧ mapped.length = ([wOffer] : List Offer).length := by
  obtain ⟨mapped, h1, _, h3, _⟩ :=
    c4_mapping_total wQuery wResData [wOffer] rfl rfl (by decide) (by decide)
  exact ⟨mapped, h1, h3⟩

/-- C5 counterexample: with all prices equal the cheapest ranking is the mapping
order, but the balanced ranking still sorts by the normalized duration score
and reorders the two equal-priced options of different duration. -/
theorem c5_stability_counterexample :
    (∀ m ∈ ([cOpt1, cOpt2] : List FlightOption), m.price = 100) ∧
    rank (some ("balanced")) [cOpt1, cOpt2] = [cOpt2, cOpt1] ∧
    ([cOpt2, cOpt1] : List FlightOption) ≠ [cOpt1, cOpt2] := by
  refine ⟨by decide, ?_, by decide⟩
  rw [rank_balanced_eq _ (by decide) (by decide)]
  unfold balancedSort
  have hs1 : scoreOf [cOpt1, cOpt2] cOpt1 = 1 / 2 := by
    norm_num [scoreOf, minQ, maxQ, jsMinQ, jsMaxQ, cOpt1, cOpt2]
  have hs2 : scoreOf [cOpt1, cOpt2] cOpt2 = 0 := by
    norm_num [scoreOf, minQ, maxQ, jsMinQ, jsMaxQ, cOpt1, cOpt2]
  simp only [List.map, hs1, hs2]
  rw [List.insertionSort, List.insertionSort, List.insertionSort]
  rw [List.orderedInsert, List.orderedInsert]
  norm_num [scoreR]

/-- C5 (amended): with all prices equal, the cheapest ranking returns the list
in exactly the mapping order; the balanced ranking does so only when the total
durations are also all equal (otherwise it orders by the duration score). -/
theorem c5_stability_amended (mapped : List FlightOption) (p : ℚ)
    (hp : ∀ m ∈ mapped, m.price = p) :
    rank (some ("cheapest")) mapped = mapped ∧
    (∀ d : Nat, (∀ m ∈ mapped, m.totalDurationMin = d) →
      rank (some ("balanced")) mapped = mapped) := by
  constructor
  · rw [rank_cheapest_eq mapped (by decide)]
    refine List.Sorted.insertionSort_eq (pairwise_of_mem_rel ?_)
    intro a ha b hb
    show a.price ≤ b.price
    rw [hp a ha, hp b hb]
  · intro d hd
    rw [rank_balanced_eq mapped (by decide) (by decide)]
    have hsc : ∀ a ∈ mapped, ∀ b ∈ mapped, scoreOf mapped a = scoreOf mapped b := by
      intro a ha b hb
      unfold scoreOf
      rw [hp a ha, hp b hb, hd a ha, hd b hb]
    unfold balancedSort
    have hsorted : List.Pairwise scoreR (mapped.map (fun m => (m, scoreOf mapped m))) := by
      refine pairwise_of_mem_rel ?_
      intro x hx y hy
      rcases List.mem_map.mp hx with ⟨a, ha, rfl⟩
      rcases List.mem_map.mp hy with ⟨b, hb, rfl⟩
      show scoreOf mapped a ≤ scoreOf mapped b
      rw [hsc a ha b hb]
    rw [List.Sorted.insertionSort_eq hsorted, List.map_map]
    have h3 : (Prod.fst ∘ fun m : FlightOption => (m, scoreOf mapped m)) = id := rfl
    rw [h3, List.map_id]

/-- Witness for C5 (amended) at a concrete equal-price list. -/
theorem c5_stability_amended_witness :
    (∀ m ∈ ([cOpt1, cOpt2] : List FlightOption), m.price = 100) ∧
    rank (some ("cheapest")) [cOpt1, cOpt2] = [cOpt1, cOpt2] :=
  ⟨by decide, (c5_stability_amended [cOpt1, cOpt2] 100 (by decide)).1⟩

/-- C6: the upstream request parameters are exactly origin, destination,
formatted departure date, passenger count defaulting to 1, fixed USD, fixed cap
30, plus a formatted returnDate key exactly when end is supplied and truthy; no
sort parameter is among the keys. -/
theorem c6_build_params (fmt : String → String) (q : Query) :
    (buildParams fmt q).map Prod.fst
        = ["originLocationCode", "destinationLocationCode", "departureDate",
           "adults", "currencyCode", "max"]
          ++ (if truthyStr q.«end» then ["returnDate"] else []) ∧
    (buildParams fmt q).lookup ("originLocationCode") = some q.«from» ∧
    (buildParams fmt q).lookup ("destinationLocationCode") = some q.«to» ∧
    (buildParams fmt q).lookup ("departureDate") = some (fmt q.start) ∧
    (buildParams fmt q).lookup ("adults") = some (toString (jsOrNat q.pax 1)) ∧
    (buildParams fmt q).lookup ("currencyCode") = some ("USD") ∧
    (buildParams fmt q).lookup ("max") = some ("30") ∧
    (buildParams fmt q).lookup ("returnDate")
        = (if truthyStr q.«end» then some (fmt (jsOrStr q.«end» (""))) else none) ∧
    (buildParams fmt q).lookup ("sort") = none := by
  by_cases h : truthyStr q.«end» = true
  · simp [buildParams, List.lookup, h]
  · simp only [Bool.not_eq_true] at h
    simp [buildParams, List.lookup, h]

/-- C7 counterexample: a successful credential exchange whose body omits the
access token makes getAccessToken return the absent value successfully instead
of failing with an AuthError. -/
theorem c7_token_counterexample :
    getAccessToken (Except.ok { access_token := none }) = Except.ok none := rfl

/-- C7 (amended): getAccessToken fails exactly when the exchange itself fails
(non-success status, surfaced as a rejected call); on a successful exchange it
returns the access_token field as-is, with no check that it is present. -/
theorem c7_token_amended (e : String) (r : TokenResponse) :
    getAccessToken (Except.error e) = Except.error e ∧
    getAccessToken (Except.ok r) = Except.ok r.access_token :=
  ⟨rfl, rfl⟩

/-- C8: with an empty error list and a data field that is absent or not an
array, the search core returns the empty option list rather than an error. -/
theorem c8_missing_data_empty (q : Query) (res : AmadeusResponse)
    (h1 : res.errors = []) (h2 : res.data = none) :
    searchAmadeus q res = Except.ok [] := by
  unfold searchAmadeus
  rw [h1, h2]
  simp [mapOffers, rank_nil]

/-- Witness for C8 at a concrete dataless response. -/
theorem c8_missing_data_empty_witness :
    wResNoData.errors = [] ∧ wResNoData.data = none ∧
    searchAmadeus wQuery wResNoData = Except.ok [] :=
  ⟨rfl, rfl, c8_missing_data_empty wQuery wResNoData rfl rfl⟩

/-- C9: every option the mapping stage produces has transfers equal to the
clamped value max(0, legs.length - 1); hence transfers is never negative, it
equals legs.length - 1 whenever there is at least one leg, and a single-leg
itinerary has zero transfers. -/
theorem c9_transfers (idx : Nat) (o : Offer) (m : FlightOption)
    (hm : mapOffer idx o = some m) :
    ((m.transfers : Int) = jsMaxI 0 ((m.legs.length : Int) - 1)) ∧
    (0 ≤ (m.transfers : Int)) ∧
    (m.legs ≠ [] → (m.transfers : Int) = (m.legs.length : Int) - 1) ∧
    (m.legs.length = 1 → m.transfers = 0) := by
  unfold mapOffer at hm
  cases hh : o.itineraries.head? with
  | none =>
    rw [hh] at hm
    cases hm
  | some itin =>
    rw [hh] at hm
    injection hm with hm2
    subst hm2
    refine ⟨(transfers_arith _).1, (transfers_arith _).2.1,
      fun hne2 => (transfers_arith _).2.2.1 (fun h0 => hne2 (List.length_eq_zero.mp h0)),
      fun h1 => (transfers_arith _).2.2.2 h1⟩

/-- Witness for C9 at a concrete single-segment offer. -/
theorem c9_transfers_witness :
    mapOffer 0 wOffer = some wMapped ∧
    (wMapped.transfers : Int) = (wMapped.legs.length : Int) - 1 := by
  have hm : mapOffer 0 wOffer = some wMapped := by decide
  exact ⟨hm, (c9_transfers 0 wOffer wMapped hm).2.2.1 (by decide)⟩

/-- C10: for every optimize value the ranking step returns a permutation of the
mapped list, made of exactly the mapped option values themselves, so every field
of every option is unchanged and no transient score survives on the result. -/
theorem c10_rank_permutes (optimize : Option String) (mapped : List FlightOption) :
    ((rank optimize mapped).Perm mapped) ∧
    (∀ m ∈ rank optimize mapped, m ∈ mapped) :=
  ⟨rank_perm_helper optimize mapped,
    fun m hm => (rank_perm_helper optimize mapped).mem_iff.mp hm⟩
